import Mathlib

/-!
# Verification of the dining-hall queue simulation (`src/main.py`)

A shallow embedding of the discrete-event simulation in `src/main.py`:
the admission control of `Student.process`, the arrival generator
`StudentGenerator.process`, the reconfiguration listener (`CommandListener`),
configuration validation (`CanteenSimulation._validate_config`) and result
aggregation (`CanteenSimulation._collect_results`), together with an
event-level transition system covering the atomic blocks of `Student.process`
between scheduler suspension points.

Real-valued quantities (times, probabilities) are modelled over `ℚ`;
Python `int` is modelled as `Int` (or `Nat` where the source value is
manifestly non-negative).
-/

namespace DiningHall

/-! ## Configuration constants (`SimulationConfig.__init__`) -/

/-- Constant `SimulationConfig.queue_capacity` (the per-server queue bound, 40). -/
def queue_capacity : Nat := 40

/-- Constant `SimulationConfig.simulation_duration = 60 * 500` seconds. -/
def simulation_duration : ℚ := 60 * 500

/-- Constant `SimulationConfig.generator_stop_time = 60 * 40` seconds. -/
def generator_stop_time : ℚ := 60 * 40

/-- The arrival cutoff used by `StudentGenerator.process`:
`simulation_duration - generator_stop_time`. -/
def generatorCutoff : ℚ := simulation_duration - generator_stop_time

/-! ## Admission retry loop (`Student.process`, lines 337-364)

The whole admission section runs atomically (no `hold`/`request` inside).
`chosen_window_num` is read once, at the first draw (line 340); the loop body
(lines 358-364) reassigns `chosen_window_name`, the resource, the queue and
`service_time`, but never `chosen_window_num`. `retryLoop` takes the bound
`queue_capacity * chosen_window_num` exactly as the code uses it inside the
`while` condition of line 355; the sequence of further weighted draws is an
input (`draws`), `none` meaning the modelled randomness ran out while the
loop was still spinning. `load w` stands for
`len(queues[w]) + num_before_queues[w]`, which the loop does re-read for the
newly drawn window. -/

/-- The `while` loop of line 355: keep the current window `w` if
`load w < bound`, otherwise redraw from `draws`.  `bound` is fixed for the
whole loop (this is the code's behaviour: `chosen_window_num` is never
reassigned inside the loop body). -/
def retryLoop (bound : Nat) (load : Nat → Nat) (w : Nat) (draws : List Nat) : Option Nat :=
  if bound ≤ load w then
    match draws with
    | [] => none
    | d :: rest => retryLoop bound load d rest
  else some w

/-- Lines 337-364 of `Student.process`: first draw `w0`, bound computed once
as `queue_capacity * nums w0`, then the retry loop. -/
def studentSelect (qcap : Nat) (nums load : Nat → Nat) (w0 : Nat) (draws : List Nat) :
    Option Nat :=
  retryLoop (qcap * nums w0) load w0 draws

/-- Windows and loads of the C1 failing input: window 0 has
`num_windows = 2`, window 1 has `num_windows = 1`. -/
def numsC1 : Nat → Nat := fun w => if w = 0 then 2 else 1

/-- Loads (`len(queue) + num_before_queues`) of the C1 failing input:
window 0 carries 80 people, window 1 carries 50. -/
def loadC1 : Nat → Nat := fun w => if w = 0 then 80 else 50

/-! ## Arrival generator (`StudentGenerator.process`, lines 454-472)

Each loop iteration checks `env.now() >= simulation_duration -
generator_stop_time` first and returns if so; otherwise it holds for an
exponential sample and then spawns a `Student`.  `spawnTimes cutoff t ds`
returns the simulation times at which students are spawned, starting the
loop at time `t` with the (stochastic) inter-arrival samples `ds`. -/

def spawnTimes (cutoff : ℚ) (t : ℚ) (ds : List ℚ) : List ℚ :=
  match ds with
  | [] => []
  | d :: rest => if cutoff ≤ t then [] else (t + d) :: spawnTimes cutoff (t + d) rest

/-! ## Window configuration and validation (`_validate_config`, lines 678-709) -/

/-- One entry of `SimulationConfig.windows_setup`. The typed model always has
the four keys present, so the source's missing-key check (lines 696-700) is
vacuous here; `probability` defaults to the present field (the source uses
`c.get('probability', 0)` only for the sum). -/
structure WindowConf where
  name : String
  service_time : ℚ
  probability : ℚ
  num_windows : Int
deriving DecidableEq, Repr

/-- Absolute value on `ℚ`, kept as an executable `if` so that concrete
instances evaluate by `decide`. -/
def ratAbs (x : ℚ) : ℚ := if x < 0 then -x else x

/-- Modelled from the library: `np.isclose(a, b)` with numpy's default
tolerances `rtol = 1e-5`, `atol = 1e-8`, i.e.
`abs(a - b) <= atol + rtol * abs(b)` (no NaN/inf involved here). -/
def np_isclose (a b : ℚ) : Bool :=
  ratAbs (a - b) ≤ 1 / 100000000 + (1 / 100000) * ratAbs b

/-- The validation failures `_validate_config` can raise (`ValueError`s). -/
inductive ConfigError where
  | emptyConfig
  | probSumNot1
  | nonPositiveNumWindows
  | nonPositiveServiceTime
  | negativeProbability
deriving DecidableEq, Repr

/-- Per-window checks of the `for window_conf in config` loop
(lines 696-709), first failure wins. -/
def validateWindow (c : WindowConf) : Option ConfigError :=
  if c.num_windows ≤ 0 then some .nonPositiveNumWindows
  else if c.service_time ≤ 0 then some .nonPositiveServiceTime
  else if c.probability < 0 then some .negativeProbability
  else none

/-- The loop over the window list; raises the first failing window's error. -/
def validateWindows : List WindowConf → Option ConfigError
  | [] => none
  | c :: rest =>
    match validateWindow c with
    | some e => some e
    | none => validateWindows rest

/-- Embedding of `CanteenSimulation._validate_config`: empty check, probability-sum check
via `np.isclose`, then the per-window loop. `none` means the configuration
is accepted. -/
def validate_config (config : List WindowConf) : Option ConfigError :=
  if config.isEmpty then some .emptyConfig
  else if ¬ np_isclose ((config.map (·.probability)).sum) 1 then some .probSumNot1
  else validateWindows config

/-- A configuration whose probabilities sum to `1 + 5e-6`: off by more than
`1e-6` but within numpy's default `isclose` tolerance. -/
def offByFiveMicro : List WindowConf :=
  [⟨"snack", 35, 1 / 2, 1⟩, ⟨"dumplings", 30, 500005 / 1000000, 1⟩]

/-- A configuration whose probabilities are far from summing to 1. -/
def badProbConfig : List WindowConf :=
  [⟨"snack", 35, 1 / 2, 1⟩, ⟨"dumplings", 30, 1 / 4, 1⟩]

/-! ## Statistics aggregation (`_collect_results`, lines 751-804)

Per window, the loop reads `served = resource.claimers().number_of_departures`
and the NaN-sanitised mean waiting time, then accumulates
`total_served_customers += served` and
`total_waiting_time += avg_waiting_time * served`. -/

/-- The per-window figures the aggregation loop reads. `avg_wait` is the
value after the NaN-to-0 replacement of line 775. -/
structure WindowStats where
  served : Nat
  avg_wait : ℚ
deriving DecidableEq, Repr

/-- The accumulation loop of `_collect_results`:
`(total_served_customers, total_waiting_time)`. -/
def collectTotals (ws : List WindowStats) : Nat × ℚ :=
  ws.foldl (fun acc st => (acc.1 + st.served, acc.2 + st.avg_wait * st.served)) (0, 0)

/-- A concrete per-window statistics table: 3 customers served at mean wait
10, 1 customer served at mean wait 2. -/
def statsExample : List WindowStats := [⟨3, 10⟩, ⟨1, 2⟩]

/-- Embedding of `results["overall_average_waiting_time"]` (lines 800-802):
`total_waiting_time / total_served_customers if total_served_customers > 0
else 0`. -/
def overall_average_waiting_time (ws : List WindowStats) : ℚ :=
  if 0 < (collectTotals ws).1 then (collectTotals ws).2 / ((collectTotals ws).1 : ℚ) else 0

/-! ## Command listener: text handling

Python's `command.split()` (whitespace split dropping empty fields) and
`str.strip()`, and `int(num_str)` restricted to the strings that can occur
after a whitespace split: an optional sign, then ASCII digit groups
separated by single underscores. -/

/-- Worker for the whitespace split: `cur` is the current token, reversed. -/
def splitWsGo : List Char → List Char → List (List Char)
  | cur, [] => if cur.isEmpty then [] else [cur.reverse]
  | cur, c :: rest =>
    if c.isWhitespace then
      if cur.isEmpty then splitWsGo [] rest else cur.reverse :: splitWsGo [] rest
    else splitWsGo (c :: cur) rest

/-- Python's `str.split()` with no argument. -/
def splitPy (s : String) : List String :=
  (splitWsGo [] s.toList).map fun cs => String.mk cs

/-- Python's `str.strip()`: drop whitespace at both ends. -/
def pyStrip (s : String) : String :=
  String.mk (((s.toList.dropWhile Char.isWhitespace).reverse.dropWhile Char.isWhitespace).reverse)

/-- Digit-group body of a Python integer literal: digits with single
underscores strictly between digits. Accumulates the value. -/
def digitsVal (acc : Nat) : List Char → Option Nat
  | [] => some acc
  | '_' :: c :: rest =>
    if c.isDigit then digitsVal (acc * 10 + (c.toNat - 48)) rest else none
  | c :: rest =>
    if c.isDigit then digitsVal (acc * 10 + (c.toNat - 48)) rest else none

/-- Python `int(s)` for the whitespace-free strings produced by `split()`:
optional `+`/`-`, then digit groups with underscores; `none` models a
`ValueError`. -/
def pyInt (s : String) : Option Int :=
  match s.toList with
  | [] => none
  | '+' :: rest =>
    match rest with
    | [] => none
    | c :: _ => if c.isDigit then (digitsVal 0 rest).map Int.ofNat else none
  | '-' :: rest =>
    match rest with
    | [] => none
    | c :: _ => if c.isDigit then (digitsVal 0 rest).map (fun n => -(n : Int)) else none
  | c :: _ =>
    if c.isDigit then (digitsVal 0 s.toList).map Int.ofNat else none

/-! ## Command listener: state mutation
(`_process_command` lines 523-545, `_update_window_capacity` lines 554-599)

The listener touches four pieces of `CanteenSimulation` state: the
`windows_setup` list of dicts, the name-keyed `windows` (Resource
capacities) and `queues` (Queue capacities) dicts, and
`config.total_num_windows`. -/

/-- The slice of `CanteenSimulation` state the command listener reads and
mutates. Resource/Queue capacities are kept by name, as in the Python dicts. -/
structure CanteenDicts where
  windows_setup : List WindowConf
  windows : List (String × Int)
  queues : List (String × Int)
  total_num_windows : Int
deriving DecidableEq, Repr

/-- Dict lookup by key. -/
def lookupCap (l : List (String × Int)) (name : String) : Option Int :=
  (l.find? fun p => p.1 = name).map (·.2)

/-- Dict value assignment (`d[name] = v`) — keys are unique in the source's
dicts, so mapping over all matching keys coincides with the dict update. -/
def setCap (l : List (String × Int)) (name : String) (v : Int) : List (String × Int) :=
  l.map fun p => if p.1 = name then (p.1, v) else p

/-- The `for conf in windows_setup ... break` search of lines 563-567. -/
def findWindowConf (ws : List WindowConf) (name : String) : Option WindowConf :=
  ws.find? fun c => c.name = name

/-- Line 597 (num_windows assignment on the found config dict): mutate the first
config whose name matches, leaving the list order intact. -/
def setNumWindowsFirst (ws : List WindowConf) (name : String) (n : Int) : List WindowConf :=
  match ws with
  | [] => []
  | c :: rest =>
    if c.name = name then { c with num_windows := n } :: rest
    else c :: setNumWindowsFirst rest name n

/-- Embedding of `CommandListener._update_window_capacity` (lines 554-599). Note the
source's order: `total_num_windows` is recomputed (lines 592-594) from the
*current* `windows_setup` entries, and only afterwards is
`window_config['num_windows']` assigned (line 597). -/
def update_window_capacity (qcap : Int) (s : CanteenDicts) (window_name : String)
    (new_num : Int) : CanteenDicts :=
  match findWindowConf s.windows_setup window_name with
  | none => s
  | some _ =>
    let windows' :=
      if (s.windows.find? fun p => p.1 = window_name).isSome then
        setCap s.windows window_name new_num
      else s.windows
    let queues' :=
      if (s.queues.find? fun p => p.1 = window_name).isSome then
        setCap s.queues window_name (qcap * new_num)
      else s.queues
    let total' := (s.windows_setup.map (·.num_windows)).sum
    let setup' := setNumWindowsFirst s.windows_setup window_name new_num
    { windows_setup := setup', windows := windows', queues := queues',
      total_num_windows := total' }

/-- Embedding of `CommandListener._process_command` (lines 523-545): `help` short-circuit,
two-field syntax check, integer parse, `new_num >= 1` check, then the
capacity update.  `_show_help` and the error `print`s only write to the
console, so the state is returned unchanged on those paths. -/
def process_command (qcap : Int) (s : CanteenDicts) (command : String) : CanteenDicts :=
  if command = "help" then s
  else
    match splitPy command with
    | [window_name, num_str] =>
      match pyInt num_str with
      | none => s
      | some new_num =>
        if new_num < 1 then s else update_window_capacity qcap s window_name new_num
    | _ => s

/-- The guard path of `_process_command` that reaches a mutation, as a
boolean: not `help`, exactly two fields, integer count, count ≥ 1, and a
known window name. -/
def validDirectiveB (s : CanteenDicts) (command : String) : Bool :=
  if command = "help" then false
  else
    match splitPy command with
    | [window_name, num_str] =>
      match pyInt num_str with
      | some n => decide (1 ≤ n) && (findWindowConf s.windows_setup window_name).isSome
      | none => false
    | _ => false

/-- Embedding of `CommandListener._check_commands` (lines 509-521): read the file, strip,
and only when the text is non-empty and differs from `last_command` record
it and process it.  `content = none` models `FileNotFoundError` (ignored).
Returns the new `last_command` and the command processed this poll, if any. -/
def check_commands (last : String) (content : Option String) : String × Option String :=
  match content with
  | none => (last, none)
  | some raw =>
    let command := pyStrip raw
    if command ≠ "" ∧ command ≠ last then (command, some command) else (last, none)

/-- A sequence of polls (one per `hold(1.0)` of `CommandListener.process`):
returns the commands actually handed to `_process_command`, in order. -/
def pollRun : String → List (Option String) → List String
  | _, [] => []
  | last, c :: rest =>
    match check_commands last c with
    | (last', some cmd) => cmd :: pollRun last' rest
    | (last', none) => pollRun last' rest

/-- The `windows_setup` shipped in `SimulationConfig` (lines 59-137). -/
def sourceSetup : List WindowConf :=
  [⟨"casserole", 35, 165 / 1000, 1⟩,
   ⟨"noodles_1", 35, 132 / 1000, 1⟩,
   ⟨"noodles_2", 35, 132 / 1000, 1⟩,
   ⟨"dumplings", 30, 198 / 1000, 1⟩,
   ⟨"snack", 60, 373 / 1000, 1⟩]

/-- The listener-visible state right after `CanteenSimulation.__init__`:
Resource capacities `num_windows`, Queue capacities
`queue_capacity * num_windows`, and `total_num_windows` the sum of the
`num_windows` fields. -/
def initDicts : CanteenDicts :=
  { windows_setup := sourceSetup,
    windows := sourceSetup.map fun c => (c.name, c.num_windows),
    queues := sourceSetup.map fun c => (c.name, 40 * c.num_windows),
    total_num_windows := (sourceSetup.map (·.num_windows)).sum }

/-! ## Event-level transition system

`Student.process` runs atomically between scheduler suspension points (the
`hold`s of lines 382/396/422 and the `request` of line 405).  The atomic
blocks, as state transitions:

* lines 337-372 (draw, facility-wide balk check, retry loop, counter
  increments) are one block — `balk` or `commit`;
* lines 398-405 (`num_before_queues -= 1`, `enter(queue)`, `request`) are
  one block — `enterQueue`;
* lines 418-422 (`leave(queue)`, `total_num -= 1`) on resource grant —
  `grant`;
* line 425 (`release`) — `depart`.

`_update_window_capacity` on a valid directive is the `reconfig` step
(its name-lookup half lives in the `CanteenDicts` model above; here the
window is given by index).  The timing of resource grants is left
nondeterministic — `grant` may fire whenever the student is queued — which
only enlarges the set of reachable behaviours.  Windows are indexed by
`Fin W`; student ids by `Nat`. -/

/-- Where a `Student` is in its `process`, between suspension points. -/
inductive Phase (W : Nat) : Type where
  | arriving : Phase W
  | transiting : Fin W → Phase W
  | queued : Fin W → Phase W
  | serving : Phase W
  | gone : Phase W
deriving DecidableEq, Repr

/-- The shared simulation state touched by `Student.process` and the
command listener: window configuration, Resource/Queue capacities, the
`Queue` member lists, `num_before_queues`, `total_num[0]`,
`config.total_num_windows`, and the phase of every student. -/
structure SimState (W : Nat) : Type where
  nums : Fin W → Nat
  resCap : Fin W → Nat
  queueCap : Fin W → Nat
  members : Fin W → List Nat
  nbq : Fin W → Int
  total : Int
  totalWindows : Nat
  phase : Nat → Option (Phase W)
  active : List Nat

/-- Transition labels: which atomic block fires, for which student. -/
inductive Label (W : Nat) : Type where
  | arrive : Nat → Label W
  | balk : Nat → Label W
  | commit : Nat → Fin W → Fin W → Label W
  | enterQueue : Nat → Fin W → Label W
  | grant : Nat → Fin W → Label W
  | depart : Nat → Label W
  | reconfig : Fin W → Nat → Label W
deriving DecidableEq, Repr

/-- Number of students in `l` whose phase under `f` is `p`. -/
def countIn (l : List Nat) {W : Nat} (f : Nat → Option (Phase W)) (p : Phase W) : Nat :=
  (l.filter fun c => f c = some p).length

/-- One atomic block of the simulation.  Guards are the source's `if`/`while`
conditions; updated fields mirror the statements executed in the block. -/
inductive Step {W : Nat} (q : Nat) : SimState W → Label W → SimState W → Prop where
  | arrive {s : SimState W} {c : Nat}
      (h : s.phase c = none) :
      Step q s (.arrive c)
        { s with phase := Function.update s.phase c (some .arriving),
                 active := s.active ++ [c] }
  | balk {s : SimState W} {c : Nat}
      (hph : s.phase c = some .arriving)
      (hfull : ((q * s.totalWindows : Nat) : Int) ≤ s.total) :
      Step q s (.balk c)
        { s with phase := Function.update s.phase c (some .gone) }
  | commit {s : SimState W} {c : Nat} {v w : Fin W}
      (hph : s.phase c = some .arriving)
      (hroom : s.total < ((q * s.totalWindows : Nat) : Int))
      (hslack : ((s.members w).length : Int) + s.nbq w < ((q * s.nums v : Nat) : Int))
      (hfirst : w ≠ v →
        ¬ ((s.members v).length : Int) + s.nbq v < ((q * s.nums v : Nat) : Int)) :
      Step q s (.commit c v w)
        { s with phase := Function.update s.phase c (some (.transiting w)),
                 nbq := Function.update s.nbq w (s.nbq w + 1),
                 total := s.total + 1 }
  | enterQueue {s : SimState W} {c : Nat} {w : Fin W}
      (hph : s.phase c = some (.transiting w)) :
      Step q s (.enterQueue c w)
        { s with phase := Function.update s.phase c (some (.queued w)),
                 nbq := Function.update s.nbq w (s.nbq w - 1),
                 members := Function.update s.members w (s.members w ++ [c]) }
  | grant {s : SimState W} {c : Nat} {w : Fin W}
      (hph : s.phase c = some (.queued w)) :
      Step q s (.grant c w)
        { s with phase := Function.update s.phase c (some .serving),
                 members := Function.update s.members w ((s.members w).erase c),
                 total := s.total - 1 }
  | depart {s : SimState W} {c : Nat}
      (hph : s.phase c = some .serving) :
      Step q s (.depart c)
        { s with phase := Function.update s.phase c (some .gone) }
  | reconfig {s : SimState W} {w : Fin W} {n : Nat}
      (hn : 1 ≤ n) :
      Step q s (.reconfig w n)
        { s with resCap := Function.update s.resCap w n,
                 queueCap := Function.update s.queueCap w (q * n),
                 totalWindows := ∑ w', s.nums w',
                 nums := Function.update s.nums w n }

/-- A finite run of atomic blocks. -/
inductive Steps {W : Nat} (q : Nat) : SimState W → List (Label W) → SimState W → Prop where
  | nil {s : SimState W} : Steps q s [] s
  | cons {s s' s'' : SimState W} {l : Label W} {ls : List (Label W)}
      (h : Step q s l s') (hs : Steps q s' ls s'') :
      Steps q s (l :: ls) s''

/-- The reachable-state invariant: student ids are unique, phases are
supported on `active`, `num_before_queues` counts the transiting students,
queue member lists are duplicate-free and agree with the queued phases, and
`total_num[0]` (`total`) equals the sum over windows of
`num_before_queues + len(queue)`. -/
def Inv {W : Nat} (s : SimState W) : Prop :=
  s.active.Nodup ∧
  (∀ c, s.phase c ≠ none → c ∈ s.active) ∧
  (∀ c ∈ s.active, s.phase c ≠ none) ∧
  (∀ w, s.nbq w = (countIn s.active s.phase (.transiting w) : Int)) ∧
  (∀ w, (s.members w).Nodup) ∧
  (∀ w, ∀ c ∈ s.members w, s.phase c = some (.queued w)) ∧
  (∀ c w, s.phase c = some (.queued w) → c ∈ s.members w) ∧
  s.total = ∑ w, (s.nbq w + ((s.members w).length : Int))

/-! ### Concrete states and traces used by the claim theorems -/

/-- A mid-run state over one window: student 4 transiting, student 5 queued. -/
def C9start : SimState 1 :=
  { nums := fun _ => 1, resCap := fun _ => 1, queueCap := fun _ => 40,
    members := fun _ => [5], nbq := fun _ => 1, total := 2, totalWindows := 1,
    phase := fun c =>
      if c = 4 then some (.transiting 0) else if c = 5 then some (.queued 0) else none,
    active := [4, 5] }

/-- A full facility (`qcap = 1`, one window, one server): student 5 queued,
student 3 arriving; `total_num = queue_capacity * total_num_windows = 1`. -/
def C3state : SimState 1 :=
  { nums := fun _ => 1, resCap := fun _ => 1, queueCap := fun _ => 1,
    members := fun _ => [5], nbq := fun _ => 0, total := 1, totalWindows := 1,
    phase := fun c =>
      if c = 3 then some .arriving else if c = 5 then some (.queued 0) else none,
    active := [3, 5] }

/-- An empty facility with one window of two servers (`qcap = 1`):
queue capacity `1 * 2 = 2`, facility total `2`. -/
def C5init : SimState 1 :=
  { nums := fun _ => 2, resCap := fun _ => 2, queueCap := fun _ => 2,
    members := fun _ => [], nbq := fun _ => 0, total := 0, totalWindows := 2,
    phase := fun _ => none, active := [] }

/-- Two students are admitted and enter the queue (length 2, capacity 2);
then a directive shrinks the window to one server, so `set_capacity` drops
the queue capacity to 1 below the current membership. -/
def C5trace : List (Label 1) :=
  [.arrive 0, .commit 0 0 0, .enterQueue 0 0,
   .arrive 1, .commit 1 0 0, .enterQueue 1 0,
   .reconfig 0 1]

/-- The empty initial facility of the source configuration: five windows,
one server each, queue capacities `40`. -/
def sourceStart : SimState 5 :=
  { nums := fun _ => 1, resCap := fun _ => 1, queueCap := fun _ => 40,
    members := fun _ => [], nbq := fun _ => 0, total := 0, totalWindows := 5,
    phase := fun _ => none, active := [] }

/-! ## Helper lemmas -/

variable {W : Nat}

theorem countIn_nil (f : Nat → Option (Phase W)) (p : Phase W) : countIn [] f p = 0 := rfl

theorem countIn_cons (a : Nat) (l : List Nat) (f : Nat → Option (Phase W)) (p : Phase W) :
    countIn (a :: l) f p = (if f a = some p then 1 else 0) + countIn l f p := by
  by_cases h : f a = some p <;> simp [countIn, List.filter_cons, h, Nat.add_comm]

theorem countIn_append (l₁ l₂ : List Nat) (f : Nat → Option (Phase W)) (p : Phase W) :
    countIn (l₁ ++ l₂) f p = countIn l₁ f p + countIn l₂ f p := by
  simp [countIn, List.filter_append]

theorem countIn_congr {l : List Nat} {f g : Nat → Option (Phase W)} {p : Phase W}
    (h : ∀ c ∈ l, f c = g c) : countIn l f p = countIn l g p := by
  unfold countIn
  rw [List.filter_congr]
  intro a ha
  simp [h a ha]

theorem countIn_update_not_mem {l : List Nat} {f : Nat → Option (Phase W)} {p : Phase W}
    {c : Nat} {v : Option (Phase W)} (hc : c ∉ l) :
    countIn l (Function.update f c v) p = countIn l f p :=
  countIn_congr fun a ha => Function.update_noteq (by rintro rfl; exact hc ha) _ _

theorem countIn_update_mem {l : List Nat} {f : Nat → Option (Phase W)} {p : Phase W}
    {c : Nat} {v : Option (Phase W)} (hnd : l.Nodup) (hc : c ∈ l) :
    countIn l (Function.update f c v) p + (if f c = some p then 1 else 0)
      = countIn l f p + (if v = some p then 1 else 0) := by
  induction l with
  | nil => cases hc
  | cons a t ih =>
    rcases List.nodup_cons.mp hnd with ⟨hat, hndt⟩
    rcases List.mem_cons.mp hc with heq | hmem
    · subst heq
      rw [countIn_cons, countIn_cons, Function.update_same, countIn_update_not_mem hat]
      by_cases h1 : v = some p <;> by_cases h2 : f c = some p <;> simp [h1, h2] <;> omega
    · have hac : a ≠ c := fun h => hat (h ▸ hmem)
      rw [countIn_cons, countIn_cons, Function.update_noteq hac]
      have := ih hndt hmem
      by_cases h2 : f a = some p <;> simp [h2] <;> omega

theorem sum_update_add (F : Fin W → Int) (w : Fin W) (d : Int) :
    (∑ x, Function.update F w (F w + d) x) = (∑ x, F x) + d := by
  rw [Finset.sum_update_of_mem (Finset.mem_univ w), Finset.sdiff_singleton_eq_erase,
    ← Finset.add_sum_erase _ F (Finset.mem_univ w)]
  ring

/-- From the members-are-queued component of `Inv`: a student whose phase is
anything but `queued w` is not a member of queue `w`. -/
theorem not_mem_members {s : SimState W}
    (h6 : ∀ w, ∀ c ∈ s.members w, s.phase c = some (.queued w))
    {c : Nat} {p : Phase W} (hp : s.phase c = some p) (w : Fin W)
    (hne : p ≠ .queued w) : c ∉ s.members w := by
  intro hm
  have := h6 w c hm
  rw [hp] at this
  exact hne (Option.some.inj this)

/-- Every atomic block of `Student.process` (and every reconfiguration)
preserves the reachable-state invariant. -/
theorem Inv_step {qcap : Nat} {s s' : SimState W} {l : Label W}
    (hInv : Inv s) (hstep : Step qcap s l s') : Inv s' := by
  obtain ⟨h1, h2, h3, h4, h5, h6, h7, h8⟩ := hInv
  cases hstep with
  | arrive h =>
    rename_i c
    have hca : c ∉ s.active := fun hm => h3 c hm h
    refine ⟨?_, ?_, ?_, ?_, h5, ?_, ?_, h8⟩
    · dsimp only
      rw [List.nodup_append]
      refine ⟨h1, List.nodup_singleton c, fun a ha hb => ?_⟩
      have hac : a = c := by simpa using hb
      exact hca (hac ▸ ha)
    · dsimp only
      intro c' hc'
      by_cases hcc : c' = c
      · subst hcc
        exact List.mem_append_right _ (List.mem_singleton_self c')
      · rw [Function.update_noteq hcc] at hc'
        exact List.mem_append_left _ (h2 c' hc')
    · dsimp only
      intro c' hc'
      rcases List.mem_append.mp hc' with hm | hm
      · have hne : c' ≠ c := fun he => hca (he ▸ hm)
        rw [Function.update_noteq hne]
        exact h3 c' hm
      · have he : c' = c := by simpa using hm
        subst he
        rw [Function.update_same]
        simp
    · dsimp only
      intro w
      rw [countIn_append, countIn_update_not_mem hca, countIn_cons, countIn_nil,
        Function.update_same]
      simpa using h4 w
    · dsimp only
      intro w m hm
      have hq := h6 w m hm
      have hne : m ≠ c := by
        intro he
        rw [he, h] at hq
        cases hq
      rw [Function.update_noteq hne]
      exact hq
    · dsimp only
      intro c' w hc'
      by_cases hcc : c' = c
      · subst hcc
        rw [Function.update_same] at hc'
        simp at hc'
      · rw [Function.update_noteq hcc] at hc'
        exact h7 c' w hc'
  | balk hph hfull =>
    rename_i c
    have hca : c ∈ s.active := h2 c (by rw [hph]; simp)
    refine ⟨h1, ?_, ?_, ?_, h5, ?_, ?_, h8⟩
    · dsimp only
      intro c' hc'
      by_cases hcc : c' = c
      · exact hcc ▸ hca
      · rw [Function.update_noteq hcc] at hc'
        exact h2 c' hc'
    · dsimp only
      intro c' hc'
      by_cases hcc : c' = c
      · subst hcc
        rw [Function.update_same]
        simp
      · rw [Function.update_noteq hcc]
        exact h3 c' hc'
    · dsimp only
      intro w
      have hcu := countIn_update_mem (f := s.phase) (p := Phase.transiting w)
        (v := some Phase.gone) h1 hca
      rw [hph] at hcu
      simp at hcu
      rw [hcu]
      exact h4 w
    · dsimp only
      intro w m hm
      have hq := h6 w m hm
      have hne : m ≠ c := by
        intro he
        rw [he, hph] at hq
        simp at hq
      rw [Function.update_noteq hne]
      exact hq
    · dsimp only
      intro c' w hc'
      by_cases hcc : c' = c
      · subst hcc
        rw [Function.update_same] at hc'
        simp at hc'
      · rw [Function.update_noteq hcc] at hc'
        exact h7 c' w hc'
  | depart hph =>
    rename_i c
    have hca : c ∈ s.active := h2 c (by rw [hph]; simp)
    refine ⟨h1, ?_, ?_, ?_, h5, ?_, ?_, h8⟩
    · dsimp only
      intro c' hc'
      by_cases hcc : c' = c
      · exact hcc ▸ hca
      · rw [Function.update_noteq hcc] at hc'
        exact h2 c' hc'
    · dsimp only
      intro c' hc'
      by_cases hcc : c' = c
      · subst hcc
        rw [Function.update_same]
        simp
      · rw [Function.update_noteq hcc]
        exact h3 c' hc'
    · dsimp only
      intro w
      have hcu := countIn_update_mem (f := s.phase) (p := Phase.transiting w)
        (v := some Phase.gone) h1 hca
      rw [hph] at hcu
      simp at hcu
      rw [hcu]
      exact h4 w
    · dsimp only
      intro w m hm
      have hq := h6 w m hm
      have hne : m ≠ c := by
        intro he
        rw [he, hph] at hq
        simp at hq
      rw [Function.update_noteq hne]
      exact hq
    · dsimp only
      intro c' w hc'
      by_cases hcc : c' = c
      · subst hcc
        rw [Function.update_same] at hc'
        simp at hc'
      · rw [Function.update_noteq hcc] at hc'
        exact h7 c' w hc'
  | commit hph hroom hslack hfirst =>
    rename_i c w0 w
    have hca : c ∈ s.active := h2 c (by rw [hph]; simp)
    refine ⟨h1, ?_, ?_, ?_, h5, ?_, ?_, ?_⟩
    · dsimp only
      intro c' hc'
      by_cases hcc : c' = c
      · exact hcc ▸ hca
      · rw [Function.update_noteq hcc] at hc'
        exact h2 c' hc'
    · dsimp only
      intro c' hc'
      by_cases hcc : c' = c
      · subst hcc
        rw [Function.update_same]
        simp
      · rw [Function.update_noteq hcc]
        exact h3 c' hc'
    · dsimp only
      intro w'
      have hcu := countIn_update_mem (f := s.phase) (p := Phase.transiting w')
        (v := some (Phase.transiting w)) h1 hca
      rw [hph] at hcu
      by_cases hww : w' = w
      · subst hww
        simp at hcu
        rw [Function.update_same]
        have h4w := h4 w'
        omega
      · simp [Ne.symm hww] at hcu
        rw [Function.update_noteq hww]
        have h4w := h4 w'
        omega
    · dsimp only
      intro w' m hm
      have hq := h6 w' m hm
      have hne : m ≠ c := by
        intro he
        rw [he, hph] at hq
        simp at hq
      rw [Function.update_noteq hne]
      exact hq
    · dsimp only
      intro c' w' hc'
      by_cases hcc : c' = c
      · subst hcc
        rw [Function.update_same] at hc'
        simp at hc'
      · rw [Function.update_noteq hcc] at hc'
        exact h7 c' w' hc'
    · dsimp only
      have he : (fun w' => Function.update s.nbq w (s.nbq w + 1) w'
            + ((s.members w').length : Int))
          = Function.update (fun w' => s.nbq w' + ((s.members w').length : Int)) w
              (s.nbq w + ((s.members w).length : Int) + 1) := by
        funext w'
        by_cases hww : w' = w
        · subst hww
          rw [Function.update_same, Function.update_same]
          ring
        · rw [Function.update_noteq hww, Function.update_noteq hww]
      rw [he, sum_update_add, ← h8]
  | enterQueue hph =>
    rename_i c w
    have hca : c ∈ s.active := h2 c (by rw [hph]; simp)
    have hcm : ∀ w', c ∉ s.members w' := fun w' =>
      not_mem_members h6 hph w' (by simp)
    refine ⟨h1, ?_, ?_, ?_, ?_, ?_, ?_, ?_⟩
    · dsimp only
      intro c' hc'
      by_cases hcc : c' = c
      · exact hcc ▸ hca
      · rw [Function.update_noteq hcc] at hc'
        exact h2 c' hc'
    · dsimp only
      intro c' hc'
      by_cases hcc : c' = c
      · subst hcc
        rw [Function.update_same]
        simp
      · rw [Function.update_noteq hcc]
        exact h3 c' hc'
    · dsimp only
      intro w'
      have hcu := countIn_update_mem (f := s.phase) (p := Phase.transiting w')
        (v := some (Phase.queued w)) h1 hca
      rw [hph] at hcu
      by_cases hww : w' = w
      · subst hww
        simp at hcu
        rw [Function.update_same]
        have h4w := h4 w'
        omega
      · simp [Ne.symm hww] at hcu
        rw [Function.update_noteq hww]
        have h4w := h4 w'
        omega
    · dsimp only
      intro w'
      by_cases hww : w' = w
      · subst hww
        rw [Function.update_same, List.nodup_append]
        refine ⟨h5 w', List.nodup_singleton c, fun a ha hb => ?_⟩
        have hac : a = c := by simpa using hb
        exact (hcm w') (hac ▸ ha)
      · rw [Function.update_noteq hww]
        exact h5 w'
    · dsimp only
      intro w' m hm
      by_cases hww : w' = w
      · subst hww
        rw [Function.update_same] at hm
        rcases List.mem_append.mp hm with hm' | hm'
        · have hq := h6 w' m hm'
          have hne : m ≠ c := fun he => (hcm w') (he ▸ hm')
          rw [Function.update_noteq hne]
          exact hq
        · have he : m = c := by simpa using hm'
          subst he
          rw [Function.update_same]
      · rw [Function.update_noteq hww] at hm
        have hq := h6 w' m hm
        have hne : m ≠ c := fun he => (hcm w') (he ▸ hm)
        rw [Function.update_noteq hne]
        exact hq
    · dsimp only
      intro c' w' hc'
      by_cases hcc : c' = c
      · subst hcc
        rw [Function.update_same] at hc'
        have hww : w' = w := by
          have := Option.some.inj hc'
          simpa [eq_comm] using congrArg (fun p => p) this
        subst hww
        rw [Function.update_same]
        exact List.mem_append_right _ (List.mem_singleton_self c')
      · rw [Function.update_noteq hcc] at hc'
        have hm := h7 c' w' hc'
        by_cases hww : w' = w
        · subst hww
          rw [Function.update_same]
          exact List.mem_append_left _ hm
        · rw [Function.update_noteq hww]
          exact hm
    · dsimp only
      have he : (fun w' => Function.update s.nbq w (s.nbq w - 1) w'
            + ((Function.update s.members w (s.members w ++ [c]) w').length : Int))
          = fun w' => s.nbq w' + ((s.members w').length : Int) := by
        funext w'
        by_cases hww : w' = w
        · subst hww
          rw [Function.update_same, Function.update_same]
          simp only [List.length_append, List.length_singleton]
          push_cast
          ring
        · rw [Function.update_noteq hww, Function.update_noteq hww]
      rw [he, ← h8]
  | grant hph =>
    rename_i c w
    have hca : c ∈ s.active := h2 c (by rw [hph]; simp)
    have hcm : c ∈ s.members w := h7 c w hph
    have hcnot : ∀ w', w' ≠ w → c ∉ s.members w' := by
      intro w' hne
      refine not_mem_members h6 hph w' ?_
      simp only [ne_eq, Phase.queued.injEq]
      exact fun h => hne h.symm
    refine ⟨h1, ?_, ?_, ?_, ?_, ?_, ?_, ?_⟩
    · dsimp only
      intro c' hc'
      by_cases hcc : c' = c
      · exact hcc ▸ hca
      · rw [Function.update_noteq hcc] at hc'
        exact h2 c' hc'
    · dsimp only
      intro c' hc'
      by_cases hcc : c' = c
      · subst hcc
        rw [Function.update_same]
        simp
      · rw [Function.update_noteq hcc]
        exact h3 c' hc'
    · dsimp only
      intro w'
      have hcu := countIn_update_mem (f := s.phase) (p := Phase.transiting w')
        (v := some Phase.serving) h1 hca
      rw [hph] at hcu
      simp at hcu
      rw [hcu]
      exact h4 w'
    · dsimp only
      intro w'
      by_cases hww : w' = w
      · subst hww
        rw [Function.update_same]
        exact List.Nodup.erase c (h5 w')
      · rw [Function.update_noteq hww]
        exact h5 w'
    · dsimp only
      intro w' m hm
      by_cases hww : w' = w
      · subst hww
        rw [Function.update_same] at hm
        rcases (List.Nodup.mem_erase_iff (h5 w')).mp hm with ⟨hne, hm'⟩
        have hq := h6 w' m hm'
        rw [Function.update_noteq hne]
        exact hq
      · rw [Function.update_noteq hww] at hm
        have hq := h6 w' m hm
        have hne : m ≠ c := fun he => (hcnot w' hww) (he ▸ hm)
        rw [Function.update_noteq hne]
        exact hq
    · dsimp only
      intro c' w' hc'
      by_cases hcc : c' = c
      · subst hcc
        rw [Function.update_same] at hc'
        simp at hc'
      · rw [Function.update_noteq hcc] at hc'
        have hm := h7 c' w' hc'
        by_cases hww : w' = w
        · subst hww
          rw [Function.update_same]
          exact (List.Nodup.mem_erase_iff (h5 w')).mpr ⟨hcc, hm⟩
        · rw [Function.update_noteq hww]
          exact hm
    · dsimp only
      have hlen : ((s.members w).erase c).length = (s.members w).length - 1 :=
        List.length_erase_of_mem hcm
      have hpos : 1 ≤ (s.members w).length := List.length_pos.mpr (List.ne_nil_of_mem hcm)
      have he : (fun w' => s.nbq w'
            + ((Function.update s.members w ((s.members w).erase c) w').length : Int))
          = Function.update (fun w' => s.nbq w' + ((s.members w').length : Int)) w
              (s.nbq w + ((s.members w).length : Int) + (-1)) := by
        funext w'
        by_cases hww : w' = w
        · subst hww
          rw [Function.update_same, Function.update_same, hlen]
          omega
        · rw [Function.update_noteq hww, Function.update_noteq hww]
      rw [he, sum_update_add, ← h8]
      ring
  | reconfig hn =>
    exact ⟨h1, h2, h3, h4, h5, h6, h7, h8⟩

/-- The invariant is preserved along any run. -/
theorem Inv_steps {qcap : Nat} {s s' : SimState W} {ls : List (Label W)}
    (hsteps : Steps qcap s ls s') : Inv s → Inv s' := by
  induction hsteps with
  | nil => exact id
  | cons hstep _ ih => exact fun hInv => ih (Inv_step hInv hstep)

/-- A departed or balked student stays `gone` across any single step. -/
theorem gone_step {qcap : Nat} {s s' : SimState W} {l : Label W}
    (hstep : Step qcap s l s') (a : Nat) (ha : s.phase a = some .gone) :
    s'.phase a = some .gone := by
  cases hstep with
  | arrive h =>
    rename_i c
    by_cases hac : a = c
    · subst hac
      rw [ha] at h
      cases h
    · dsimp only
      rw [Function.update_noteq hac]
      exact ha
  | balk hph hfull =>
    rename_i c
    by_cases hac : a = c
    · subst hac
      dsimp only
      rw [Function.update_same]
    · dsimp only
      rw [Function.update_noteq hac]
      exact ha
  | commit hph hroom hslack hfirst =>
    rename_i c w0 w
    by_cases hac : a = c
    · subst hac
      rw [ha] at hph
      cases hph
    · dsimp only
      rw [Function.update_noteq hac]
      exact ha
  | enterQueue hph =>
    rename_i c w
    by_cases hac : a = c
    · subst hac
      rw [ha] at hph
      cases hph
    · dsimp only
      rw [Function.update_noteq hac]
      exact ha
  | grant hph =>
    rename_i c w
    by_cases hac : a = c
    · subst hac
      rw [ha] at hph
      cases hph
    · dsimp only
      rw [Function.update_noteq hac]
      exact ha
  | depart hph =>
    rename_i c
    by_cases hac : a = c
    · subst hac
      dsimp only
      rw [Function.update_same]
    · dsimp only
      rw [Function.update_noteq hac]
      exact ha
  | reconfig hn =>
    exact ha

/-- A departed or balked student stays `gone` across any run. -/
theorem gone_steps {qcap : Nat} {s s' : SimState W} {ls : List (Label W)}
    (hsteps : Steps qcap s ls s') (a : Nat) :
    s.phase a = some .gone → s'.phase a = some .gone := by
  induction hsteps with
  | nil => exact id
  | cons hstep _ ih => exact fun ha => ih (gone_step hstep a ha)

/-- One non-reconfiguration step keeps `nums` and `queueCap` fixed and, when
all windows have equal `num_windows`, preserves the per-window load bound
`len(queue) + num_before_queues ≤ qcap * num_windows`. -/
theorem loadInv_step {qcap : Nat} {s s' : SimState W} {l : Label W}
    (hstep : Step qcap s l s') (hInv : Inv s)
    (hhom : ∀ w w', s.nums w = s.nums w')
    (hload : ∀ w, ((s.members w).length : Int) + s.nbq w ≤ ((qcap * s.nums w : Nat) : Int))
    (hnr : ∀ w n, l ≠ Label.reconfig w n) :
    s'.nums = s.nums ∧ s'.queueCap = s.queueCap ∧
      ∀ w, ((s'.members w).length : Int) + s'.nbq w ≤ ((qcap * s'.nums w : Nat) : Int) := by
  obtain ⟨h1, h2, h3, h4, h5, h6, h7, h8⟩ := hInv
  cases hstep with
  | arrive h => exact ⟨rfl, rfl, hload⟩
  | balk hph hfull => exact ⟨rfl, rfl, hload⟩
  | depart hph => exact ⟨rfl, rfl, hload⟩
  | commit hph hroom hslack hfirst =>
    rename_i c w0 w
    refine ⟨rfl, rfl, ?_⟩
    intro w'
    dsimp only
    by_cases hww : w' = w
    · subst hww
      rw [Function.update_same]
      have hb := hslack
      rw [hhom w0 w'] at hb
      omega
    · rw [Function.update_noteq hww]
      exact hload w'
  | enterQueue hph =>
    rename_i c w
    refine ⟨rfl, rfl, ?_⟩
    intro w'
    dsimp only
    by_cases hww : w' = w
    · subst hww
      rw [Function.update_same, Function.update_same]
      have := hload w'
      simp only [List.length_append, List.length_singleton]
      push_cast
      push_cast at this
      omega
    · rw [Function.update_noteq hww, Function.update_noteq hww]
      exact hload w'
  | grant hph =>
    rename_i c w
    refine ⟨rfl, rfl, ?_⟩
    intro w'
    dsimp only
    by_cases hww : w' = w
    · subst hww
      rw [Function.update_same]
      have hsub : ((s.members w').erase c).length ≤ (s.members w').length :=
        List.Sublist.length_le (List.erase_sublist c (s.members w'))
      have := hload w'
      omega
    · rw [Function.update_noteq hww]
      exact hload w'
  | reconfig hn =>
    rename_i w n
    exact absurd rfl (hnr w n)

/-- Along a reconfiguration-free run from a homogeneous facility, `nums` and
`queueCap` stay fixed and the per-window load bound is preserved. -/
theorem loadInv_steps {qcap : Nat} {s s' : SimState W} {ls : List (Label W)}
    (hsteps : Steps qcap s ls s') :
    Inv s → (∀ w w', s.nums w = s.nums w') →
    (∀ w, ((s.members w).length : Int) + s.nbq w ≤ ((qcap * s.nums w : Nat) : Int)) →
    (∀ l ∈ ls, ∀ w n, l ≠ Label.reconfig w n) →
    s'.nums = s.nums ∧ s'.queueCap = s.queueCap ∧
      ∀ w, ((s'.members w).length : Int) + s'.nbq w ≤ ((qcap * s'.nums w : Nat) : Int) := by
  induction hsteps with
  | nil => exact fun _ _ hload _ => ⟨rfl, rfl, hload⟩
  | cons hstep htail ih =>
    rename_i s1 s2 s3 lab ls2
    intro hInv hhom hload hnr
    obtain ⟨hn, hq, hl⟩ := loadInv_step hstep hInv hhom hload
      (hnr _ (List.mem_cons_self _ _))
    have hInv' := Inv_step hInv hstep
    have hhom' : ∀ w w', s2.nums w = s2.nums w' := fun w w' => by
      rw [hn]
      exact hhom w w'
    obtain ⟨hn2, hq2, hl2⟩ := ih hInv' hhom' hl
      (fun l hl => hnr l (List.mem_cons_of_mem _ hl))
    exact ⟨hn2.trans hn, hq2.trans hq, hl2⟩

/-- The invariant holds at the concrete mid-run state `C9start`. -/
theorem C9start_inv : Inv C9start := by
  refine ⟨by decide, ?_, by decide, by decide, by decide, by decide, ?_, by decide⟩
  · intro c hc
    by_cases hc4 : c = 4
    · simp [C9start, hc4]
    · by_cases hc5 : c = 5
      · simp [C9start, hc5]
      · simp [C9start, hc4, hc5] at hc
  · intro c w hc
    by_cases hc4 : c = 4
    · simp [C9start, hc4] at hc
    · by_cases hc5 : c = 5
      · simp [C9start, hc5]
      · simp [C9start, hc4, hc5] at hc

/-- The invariant holds at the concrete full-facility state `C3state`. -/
theorem C3state_inv : Inv C3state := by
  refine ⟨by decide, ?_, by decide, by decide, by decide, by decide, ?_, by decide⟩
  · intro c hc
    by_cases hc3 : c = 3
    · simp [C3state, hc3]
    · by_cases hc5 : c = 5
      · simp [C3state, hc5]
      · simp [C3state, hc3, hc5] at hc
  · intro c w hc
    by_cases hc3 : c = 3
    · simp [C3state, hc3] at hc
    · by_cases hc5 : c = 5
      · simp [C3state, hc5]
      · simp [C3state, hc3, hc5] at hc

/-- The invariant holds at the empty source-configuration facility. -/
theorem sourceStart_inv : Inv sourceStart := by
  refine ⟨by decide, ?_, by decide, by decide, by decide, by decide, ?_, by decide⟩
  · intro c hc
    simp [sourceStart] at hc
  · intro c w hc
    simp [sourceStart] at hc

/-- C1: the recheck of the admission retry loop does NOT use the newly drawn
counter's own `server_count` — `chosen_window_num` is read once at the first
draw (line 340) and never reassigned in the loop body (lines 358-364).
Failing input: first draw window 0 (`num_windows = 2`, stale bound
`40 * 2 = 80`), redraw lands on window 1 (`num_windows = 1`, load 50).
The code admits the student to window 1 (`studentSelect` returns it), even
though window 1 fails the slack test the claim describes
(`load < queue_capacity * server_count` is false: `50 ≥ 40 * 1`). -/
theorem C1_stale_bound_admits_full_counter :
    studentSelect 40 numsC1 loadC1 0 [1] = some 1 ∧ ¬ loadC1 1 < 40 * numsC1 1 := by
  decide

/-- C2: evaluation of `_process_command` at the source configuration with
the valid directive `"snack 5"`.  The Resource capacity (5), the Queue
capacity (`40 * 5 = 200`) and the CounterType's `num_windows` (5) are
updated as the claim states, but `total_num_windows` is recomputed at
lines 592-594 BEFORE `window_config['num_windows'] = new_num` runs at
line 597, so it ends at the old sum 5 instead of the claimed
`1+1+1+1+5 = 9`. -/
theorem C2_total_num_windows_lags :
    lookupCap (process_command 40 initDicts "snack 5").windows "snack" = some 5 ∧
    lookupCap (process_command 40 initDicts "snack 5").queues "snack" = some 200 ∧
    (findWindowConf (process_command 40 initDicts "snack 5").windows_setup "snack").map
        (·.num_windows) = some 5 ∧
    (process_command 40 initDicts "snack 5").total_num_windows = 5 ∧
    ((process_command 40 initDicts "snack 5").windows_setup.map (·.num_windows)).sum = 9 := by
  decide

/-- C4 counterexample: starting the generator loop at time 0 with
inter-arrival samples 27599 and 2, the code spawns students at 27599 and
27601; the second spawn is at a time past the cutoff
`simulation_duration - generator_stop_time = 27600`, because the cutoff
check (line 460) runs before the hold (line 464). -/
theorem C4_spawn_at_or_after_cutoff :
    spawnTimes generatorCutoff 0 [27599, 2] = [27599, 27601] ∧
      generatorCutoff ≤ 27601 := by
  norm_num [spawnTimes, generatorCutoff, simulation_duration, generator_stop_time]

/-- C4 (amended): every spawn except possibly the last occurs strictly
before the cutoff `simulation_duration - generator_stop_time`; once a
loop-top check sees a time at or past the cutoff, no further student is
ever created.  Only the final spawn can fall at or past the cutoff (the
check precedes the inter-arrival hold) — see
`C4_spawn_at_or_after_cutoff`. -/
theorem C4_spawns_before_cutoff (cutoff t : ℚ) (ds : List ℚ) (i : Nat)
    (h : i + 1 < (spawnTimes cutoff t ds).length) :
    (spawnTimes cutoff t ds).getD i 0 < cutoff := by
  induction ds generalizing t i with
  | nil => simp [spawnTimes] at h
  | cons d rest ih =>
    simp only [spawnTimes] at h ⊢
    by_cases hc : cutoff ≤ t
    · rw [if_pos hc] at h
      simp at h
    · rw [if_neg hc] at h ⊢
      cases i with
      | zero =>
        simp only [List.getD_cons_zero]
        by_contra hge
        push_neg at hge
        have hnil : spawnTimes cutoff (t + d) rest = [] := by
          cases rest with
          | nil => rfl
          | cons d2 r2 => simp only [spawnTimes, if_pos hge]
        rw [List.length_cons, hnil] at h
        simp at h
      | succ j =>
        simp only [List.getD_cons_succ]
        apply ih
        rw [List.length_cons] at h
        omega

/-- C4 witness: `C4_spawns_before_cutoff` at `t = 0`, samples `[1, 2, 3]`,
first spawn. -/
theorem C4_spawns_before_cutoff_witness :
    0 + 1 < (spawnTimes generatorCutoff 0 [1, 2, 3]).length ∧
      (spawnTimes generatorCutoff 0 [1, 2, 3]).getD 0 0 < generatorCutoff :=
  ⟨by norm_num [spawnTimes, generatorCutoff, simulation_duration, generator_stop_time],
    C4_spawns_before_cutoff generatorCutoff 0 [1, 2, 3] 0
      (by norm_num [spawnTimes, generatorCutoff, simulation_duration, generator_stop_time])⟩

/-- C3: a Customer whose process starts while
`total_num >= queue_capacity * total_num_windows` can only balk — the
facility-wide check of line 350 runs before anything else and is independent
of per-counter slack, so no `commit` step exists for it; its balk changes no
counter and no queue; it is in no queue when it balks and in no queue in any
later reachable state. -/
theorem C3_full_facility_balks (qcap : Nat) (s : SimState W) (c : Nat)
    (hInv : Inv s) (hph : s.phase c = some .arriving)
    (hfull : ((qcap * s.totalWindows : Nat) : Int) ≤ s.total) :
    (∀ w0 w s', ¬ Step qcap s (.commit c w0 w) s') ∧
    (∀ w, c ∉ s.members w) ∧
    (∀ s', Step qcap s (.balk c) s' →
      s'.total = s.total ∧ s'.nbq = s.nbq ∧ s'.members = s.members ∧
        s'.phase c = some .gone) ∧
    (∀ s' ls s'', Step qcap s (.balk c) s' → Steps qcap s' ls s'' →
      ∀ w, c ∉ s''.members w) := by
  refine ⟨?_, ?_, ?_, ?_⟩
  · intro w0 w s' hstep
    cases hstep with
    | commit hph' hroom hslack hfirst => exact absurd hroom (not_lt.mpr hfull)
  · intro w
    exact not_mem_members hInv.2.2.2.2.2.1 hph w (by simp)
  · intro s' hstep
    cases hstep with
    | balk hph' hfull' => exact ⟨rfl, rfl, rfl, Function.update_same _ _ _⟩
  · intro s' ls s'' hb hsteps w
    have hInv'' := Inv_steps hsteps (Inv_step hInv hb)
    have hgone : s'.phase c = some .gone := by
      cases hb with
      | balk hph' hfull' => exact Function.update_same _ _ _
    exact not_mem_members hInv''.2.2.2.2.2.1 (gone_steps hsteps c hgone) w (by simp)

/-- C3 witness: the hypotheses of `C3_full_facility_balks` hold at the
concrete full facility `C3state` with `qcap = 1` (facility cap
`1 * 1 = 1 ≤ total_num = 1`), and the arriving student 3 is in no queue. -/
theorem C3_full_facility_balks_witness :
    (Inv C3state ∧ C3state.phase 3 = some .arriving ∧
      ((1 * C3state.totalWindows : Nat) : Int) ≤ C3state.total) ∧
      3 ∉ C3state.members 0 :=
  ⟨⟨C3state_inv, by decide, by decide⟩,
    (C3_full_facility_balks 1 C3state 3 C3state_inv (by decide) (by decide)).2.1 0⟩

/-- C9: from any state satisfying the reachable-state invariant, after any
run of atomic customer operations (commit, transit completion with queue
entry, grant-and-leave, balk) and reconfigurations, `total_num[0]` equals
the sum over windows of `num_before_queues + len(queue)`, and all of these
counters are non-negative — i.e. every atomic block preserves the
equality at scheduler suspension points. -/
theorem C9_occupancy_equality (qcap : Nat) (s0 s : SimState W)
    (ls : List (Label W)) (hInv : Inv s0) (hsteps : Steps qcap s0 ls s) :
    s.total = (∑ w, (s.nbq w + ((s.members w).length : Int))) ∧
      (∀ w, 0 ≤ s.nbq w) ∧ 0 ≤ s.total := by
  obtain ⟨_, _, _, h4, _, _, _, h8⟩ := Inv_steps hsteps hInv
  have hnn : ∀ w, (0 : Int) ≤ s.nbq w := fun w => by
    rw [h4 w]
    exact Int.natCast_nonneg _
  refine ⟨h8, hnn, ?_⟩
  rw [h8]
  exact Finset.sum_nonneg fun w _ => add_nonneg (hnn w) (Int.natCast_nonneg _)

/-- C9 witness: the hypotheses of `C9_occupancy_equality` hold at the
concrete mid-run state `C9start` (one transiting, one queued student) with
the empty run. -/
theorem C9_occupancy_equality_witness :
    Inv C9start ∧
      (C9start.total = (∑ w, (C9start.nbq w + ((C9start.members w).length : Int))) ∧
        (∀ w, 0 ≤ C9start.nbq w) ∧ 0 ≤ C9start.total) :=
  ⟨C9start_inv, C9_occupancy_equality 40 C9start C9start [] C9start_inv Steps.nil⟩

/-- C5 counterexample: from the concrete facility `C5init` (one window of
two servers, `qcap = 1`, queue capacity 2), the run admits students 0 and 1
into the queue (length 2 = capacity) and then the valid directive
"window 0, 1 server" reduces the queue capacity to 1; `Queue.set_capacity`
does not evict members, so the queue holds 2 members with capacity 1 —
the claimed invariant `|members| ≤ capacity` fails under runtime capacity
changes. -/
theorem C5_queue_bound_claim_false :
    ¬ (∀ (ls : List (Label 1)) (s : SimState 1), Steps 1 C5init ls s →
        ∀ w, (s.members w).length ≤ s.queueCap w) := by
  intro hclaim
  have hsteps := Steps.cons (Step.arrive (q := 1) (s := C5init) (c := 0) (by decide))
    (Steps.cons (Step.commit (c := 0) (v := 0) (w := 0) (by decide) (by decide) (by decide)
        (fun h => absurd rfl h))
      (Steps.cons (Step.enterQueue (c := 0) (w := 0) (by decide))
        (Steps.cons (Step.arrive (c := 1) (by decide))
          (Steps.cons (Step.commit (c := 1) (v := 0) (w := 0) (by decide) (by decide)
              (by decide) (fun h => absurd rfl h))
            (Steps.cons (Step.enterQueue (c := 1) (w := 0) (by decide))
              (Steps.cons (Step.reconfig (w := 0) (n := 1) (by decide)) Steps.nil))))))
  exact absurd (hclaim _ _ hsteps 0) (by decide)

/-- C5 (amended): along any reconfiguration-free run from a state satisfying
the invariant whose windows all have the same `num_windows` (so every
admission bound, even the stale first-draw bound of line 355, equals the
target queue's own bound) and whose queue capacities equal
`queue_capacity * num_windows`, every queue's membership stays within its
capacity at every instant.  The unrestricted claim is false: see
`C5_queue_bound_claim_false`. -/
theorem C5_queue_bound_no_reconfig (qcap : Nat) (s0 s : SimState W)
    (ls : List (Label W)) (hInv : Inv s0)
    (hcap : ∀ w, s0.queueCap w = qcap * s0.nums w)
    (hload : ∀ w, ((s0.members w).length : Int) + s0.nbq w ≤ ((qcap * s0.nums w : Nat) : Int))
    (hhom : ∀ w w', s0.nums w = s0.nums w')
    (hnr : ∀ l ∈ ls, ∀ w n, l ≠ Label.reconfig w n)
    (hsteps : Steps qcap s0 ls s) :
    ∀ w, (s.members w).length ≤ s.queueCap w := by
  obtain ⟨hn, hq, hl⟩ := loadInv_steps hsteps hInv hhom hload hnr
  obtain ⟨_, _, _, h4, _, _, _, _⟩ := Inv_steps hsteps hInv
  intro w
  have h0 : (0 : Int) ≤ s.nbq w := by
    rw [h4 w]
    exact Int.natCast_nonneg _
  have hb := hl w
  have hnw : s.nums w = s0.nums w := by rw [hn]
  have hcapw : s.queueCap w = qcap * s0.nums w := by
    rw [hq]
    exact hcap w
  rw [hnw] at hb
  rw [hcapw]
  omega

/-- C5 witness: the hypotheses of `C5_queue_bound_no_reconfig` hold at the
source's five-window facility with the empty run, and window 0's queue is
within capacity. -/
theorem C5_queue_bound_no_reconfig_witness :
    (Inv sourceStart ∧ (∀ w, sourceStart.queueCap w = 40 * sourceStart.nums w) ∧
      (∀ w, ((sourceStart.members w).length : Int) + sourceStart.nbq w
          ≤ ((40 * sourceStart.nums w : Nat) : Int)) ∧
      (∀ w w', sourceStart.nums w = sourceStart.nums w')) ∧
      (sourceStart.members 0).length ≤ sourceStart.queueCap 0 :=
  ⟨⟨sourceStart_inv, by decide, by decide, by decide⟩,
    C5_queue_bound_no_reconfig 40 sourceStart sourceStart [] sourceStart_inv
      (by decide) (by decide) (by decide) (by simp) Steps.nil 0⟩

/-- C6 counterexample: the probabilities of `offByFiveMicro` sum to
`1 + 5e-6`, off from 1 by more than the claimed `1e-6`, yet
`_validate_config` accepts the configuration — `np.isclose` uses its
default tolerances `atol = 1e-8`, `rtol = 1e-5`, not `1e-6`. -/
theorem C6_tolerance_claim_false :
    validate_config offByFiveMicro = none ∧
      ¬ ratAbs ((offByFiveMicro.map (·.probability)).sum - 1) ≤ 1 / 1000000 := by
  have hsum : ((offByFiveMicro.map (·.probability)).sum : ℚ) - 1 = 5 / 1000000 := by
    norm_num [offByFiveMicro]
  have habs : ratAbs ((offByFiveMicro.map (·.probability)).sum - 1) = 5 / 1000000 := by
    rw [hsum]
    norm_num [ratAbs]
  have hclose : np_isclose ((offByFiveMicro.map (·.probability)).sum) 1 = true := by
    unfold np_isclose
    rw [decide_eq_true_eq, habs]
    norm_num [ratAbs]
  constructor
  · unfold validate_config
    rw [if_neg (by norm_num [offByFiveMicro]), if_neg (not_not_intro hclose)]
    norm_num [validateWindows, validateWindow, offByFiveMicro]
  · rw [habs]
    norm_num

/-- C6 (amended): for a non-empty configuration, `_validate_config` raises
the probability-sum error exactly when the probabilities' sum differs from 1
by more than `1e-8 + 1e-5` (numpy's default `atol + rtol * |1|`); sums
within `1e-6` of 1 are indeed accepted on this criterion, but so is any
deviation up to `1.00001e-5` — see `C6_tolerance_claim_false`. -/
theorem C6_probability_tolerance (config : List WindowConf) (h : config ≠ []) :
    (validate_config config = some ConfigError.probSumNot1 ↔
      1 / 100000000 + 1 / 100000 < ratAbs ((config.map (·.probability)).sum - 1)) := by
  have hwin : ∀ l : List WindowConf, validateWindows l ≠ some ConfigError.probSumNot1 := by
    intro l
    induction l with
    | nil => simp [validateWindows]
    | cons c rest ih =>
      unfold validateWindows validateWindow
      by_cases h1 : c.num_windows ≤ 0
      · simp [h1]
      · by_cases h2 : c.service_time ≤ 0
        · simp [h1, h2]
        · by_cases h3 : c.probability < 0
          · simp [h1, h2, h3]
          · simpa [h1, h2, h3] using ih
  have habs1 : ratAbs (1 : ℚ) = 1 := by norm_num [ratAbs]
  have hclose : np_isclose ((config.map (·.probability)).sum) 1 = true ↔
      ratAbs ((config.map (·.probability)).sum - 1) ≤ 1 / 100000000 + 1 / 100000 := by
    unfold np_isclose
    rw [decide_eq_true_eq, habs1, mul_one]
  have hne : ¬ config.isEmpty = true := by
    cases config with
    | nil => exact absurd rfl h
    | cons c rest => simp
  unfold validate_config
  rw [if_neg hne]
  by_cases hcl : np_isclose ((config.map (·.probability)).sum) 1 = true
  · rw [if_neg (not_not_intro hcl)]
    constructor
    · intro he
      exact absurd he (hwin config)
    · intro hgt
      exact absurd (hclose.mp hcl) (not_le.mpr hgt)
  · rw [if_pos hcl]
    have hgt : 1 / 100000000 + 1 / 100000 < ratAbs ((config.map (·.probability)).sum - 1) :=
      not_le.mp fun hle => hcl (hclose.mpr hle)
    exact ⟨fun _ => hgt, fun _ => rfl⟩

/-- C6 witness: `C6_probability_tolerance` at the concrete configuration
`badProbConfig` (probabilities summing to 3/4). -/
theorem C6_probability_tolerance_witness :
    badProbConfig ≠ [] ∧
      (validate_config badProbConfig = some ConfigError.probSumNot1 ↔
        1 / 100000000 + 1 / 100000 < ratAbs ((badProbConfig.map (·.probability)).sum - 1)) :=
  ⟨by decide, C6_probability_tolerance badProbConfig (by decide)⟩

/-- C7: any command that does not reach the mutation path — `help`, a field
count other than two, a non-integer count, a count below 1, or an unknown
window name — leaves the listener-visible state (Resource capacities, Queue
capacities, `windows_setup`, `total_num_windows`) unchanged; the embedded
handler is a total function, so nothing propagates to the scheduler. -/
theorem C7_invalid_directive_no_change (qcap : Int) (s : CanteenDicts) (command : String)
    (h : validDirectiveB s command = false) :
    process_command qcap s command = s := by
  unfold validDirectiveB at h
  unfold process_command
  by_cases hhelp : command = "help"
  · rw [if_pos hhelp]
  · rw [if_neg hhelp] at h ⊢
    split
    · rename_i wn ns hsplit
      rw [hsplit] at h
      dsimp only at h
      split
      · rfl
      · rename_i n hint
        rw [hint] at h
        dsimp only at h
        split
        · rfl
        · rename_i hn
          have h1n : (1 : Int) ≤ n := not_lt.mp hn
          rw [decide_eq_true h1n, Bool.true_and] at h
          have hnone : findWindowConf s.windows_setup wn = none := by
            cases hfw : findWindowConf s.windows_setup wn with
            | none => rfl
            | some cfg =>
              rw [hfw] at h
              simp at h
          unfold update_window_capacity
          rw [hnone]
    · rfl

/-- C7 witness: `C7_invalid_directive_no_change` at the source configuration
with the non-integer directive `"snack abc"`. -/
theorem C7_invalid_directive_no_change_witness :
    validDirectiveB initDicts "snack abc" = false ∧
      process_command 40 initDicts "snack abc" = initDicts :=
  ⟨by decide, C7_invalid_directive_no_change 40 initDicts "snack abc" (by decide)⟩

/-- The accumulation loop of `_collect_results` computes the map-sums of its
inputs. -/
theorem collectTotals_eq (ws : List WindowStats) :
    collectTotals ws
      = ((ws.map (·.served)).sum, (ws.map fun st => st.avg_wait * (st.served : ℚ)).sum) := by
  suffices haux : ∀ (l : List WindowStats) (a : Nat) (b : ℚ),
      l.foldl (fun acc st => (acc.1 + st.served, acc.2 + st.avg_wait * (st.served : ℚ))) (a, b)
        = (a + (l.map (·.served)).sum,
            b + (l.map fun st => st.avg_wait * (st.served : ℚ)).sum) by
    have hw := haux ws 0 0
    simpa [collectTotals] using hw
  intro l
  induction l with
  | nil =>
    intro a b
    simp
  | cons st rest ih =>
    intro a b
    simp only [List.foldl_cons, List.map_cons, List.sum_cons]
    rw [ih]
    simp only [Prod.mk.injEq]
    constructor
    · omega
    · ring

/-- C8: `overall_average_waiting_time` is the served-count-weighted average
of the per-window mean waits: it is 0 when no customer was served, and
`(Σ per-window mean wait × served count) / (Σ served count)` otherwise. -/
theorem C8_overall_weighted_average (ws : List WindowStats) :
    ((ws.map (·.served)).sum = 0 → overall_average_waiting_time ws = 0) ∧
      ((ws.map (·.served)).sum ≠ 0 →
        overall_average_waiting_time ws
          = (ws.map fun st => st.avg_wait * (st.served : ℚ)).sum
              / (((ws.map (·.served)).sum : Nat) : ℚ)) := by
  unfold overall_average_waiting_time
  rw [collectTotals_eq]
  constructor
  · intro h0
    have hc : ¬ 0 < ((ws.map (·.served)).sum,
        (ws.map fun st => st.avg_wait * (st.served : ℚ)).sum).1 := by
      simp [h0]
    rw [if_neg hc]
  · intro hne
    have hc : 0 < ((ws.map (·.served)).sum,
        (ws.map fun st => st.avg_wait * (st.served : ℚ)).sum).1 := by
      simpa using Nat.pos_of_ne_zero hne
    rw [if_pos hc]

/-- C8 witness: `C8_overall_weighted_average` at `statsExample`
(4 customers served in total). -/
theorem C8_overall_weighted_average_witness :
    (statsExample.map (·.served)).sum ≠ 0 ∧
      overall_average_waiting_time statsExample
        = (statsExample.map fun st => st.avg_wait * (st.served : ℚ)).sum
            / (((statsExample.map (·.served)).sum : Nat) : ℚ) :=
  ⟨by decide, (C8_overall_weighted_average statsExample).2 (by decide)⟩

/-- A poll sequence whose stripped text always equals the current
`last_command` executes nothing. -/
theorem pollRun_same (c : String) (hc : pyStrip c = c) (n : Nat) :
    pollRun c (List.replicate n (some c)) = [] := by
  induction n with
  | zero => rfl
  | succ m ih =>
    rw [List.replicate_succ]
    have hcheck : check_commands c (some c) = (c, none) := by
      simp only [check_commands]
      rw [hc]
      simp
    unfold pollRun
    simp only [hcheck]
    exact ih

/-- C10: a poll whose stripped file text equals the last processed text
executes nothing, and the same directive text left in place across `n + 1`
consecutive polls is executed exactly once. -/
theorem C10_dedup (last c : String) (n : Nat)
    (htrim : pyStrip c = c) (hne : c ≠ "") (hdiff : c ≠ last) :
    (∀ raw, pyStrip raw = last → check_commands last (some raw) = (last, none)) ∧
      pollRun last (List.replicate (n + 1) (some c)) = [c] := by
  constructor
  · intro raw hraw
    simp only [check_commands]
    rw [hraw]
    simp
  · rw [List.replicate_succ]
    have hcheck : check_commands last (some c) = (c, some c) := by
      simp only [check_commands]
      rw [htrim]
      simp [hne, hdiff]
    unfold pollRun
    simp only [hcheck]
    rw [pollRun_same c htrim n]

/-- C10 witness: `C10_dedup` with `last = "dumplings 2"` and the directive
`"snack 5"` left in place for three consecutive polls. -/
theorem C10_dedup_witness :
    (pyStrip "snack 5" = "snack 5" ∧ "snack 5" ≠ "" ∧ "snack 5" ≠ "dumplings 2") ∧
      pollRun "dumplings 2" (List.replicate 3 (some "snack 5")) = ["snack 5"] :=
  ⟨⟨by decide, by decide, by decide⟩,
    (C10_dedup "dumplings 2" "snack 5" 2 (by decide) (by decide) (by decide)).2⟩

end DiningHall
